import Mathlib

/-!
Verification development for the Binance futures L3 order-book estimator.
The Go source (order queue, book, delta application, snapshot emission) is
shallowly embedded below: shopspring decimals are modelled as an exact
mantissa/exponent pair, Go maps keyed by price strings as association
lists, and the per-change loops of `applyDelta` / `loadSnapshot` as folds
over change lists.
-/

namespace L3

/-- Embedding of `decimal.Decimal` from shopspring: an arbitrary-precision
integer mantissa `value` and a power-of-ten exponent `exp`; the number
denoted is `value * 10 ^ exp`. Not normalized, exactly as in the library. -/
structure Dec where
  value : Int
  exp : Int
deriving DecidableEq, Repr

/-- `decimal.Zero`, which shopspring defines as `New(0, 1)`. -/
def Dec.zero : Dec := ⟨0, 1⟩

/-- `decimal.NewFromInt`. -/
def Dec.NewFromInt (n : Int) : Dec := ⟨n, 0⟩

/-- Mantissas of `a` and `b` rescaled to their smaller exponent, the
alignment `RescalePair` performs before every arithmetic or comparison
operation in shopspring. -/
def Dec.align (a b : Dec) : Int × Int :=
  let m := min a.exp b.exp
  (a.value * 10 ^ (a.exp - m).toNat, b.value * 10 ^ (b.exp - m).toNat)

/-- `Decimal.Add`: align, add mantissas, keep the smaller exponent. -/
def Dec.add (a b : Dec) : Dec :=
  ⟨(Dec.align a b).1 + (Dec.align a b).2, min a.exp b.exp⟩

/-- `Decimal.Sub`: align, subtract mantissas, keep the smaller exponent. -/
def Dec.sub (a b : Dec) : Dec :=
  ⟨(Dec.align a b).1 - (Dec.align a b).2, min a.exp b.exp⟩

/-- `Decimal.Equal` (decimal-value equality, via `Cmp == 0`). -/
def Dec.eqB (a b : Dec) : Bool := (Dec.align a b).1 = (Dec.align a b).2

/-- `Decimal.LessThan` (`Cmp == -1`). -/
def Dec.ltB (a b : Dec) : Bool := (Dec.align a b).1 < (Dec.align a b).2

/-- `Decimal.GreaterThan` (`Cmp == 1`). -/
def Dec.gtB (a b : Dec) : Bool := (Dec.align a b).2 < (Dec.align a b).1

/-- `Decimal.IsZero`: the mantissa sign is zero. -/
def Dec.isZero (d : Dec) : Bool := d.value = 0

/-- The rational value denoted by a decimal, used in specifications. -/
def Dec.toRat (d : Dec) : ℚ := (d.value : ℚ) * (10 : ℚ) ^ d.exp

/-- Numeric value accumulated from a list of decimal digit characters,
as `strconv.ParseInt` / `big.Int.SetString` do for base-10 digit strings. -/
def digitsVal (cs : List Char) : Int :=
  cs.foldl (fun n c => n * 10 + ((c.toNat - '0'.toNat : Nat) : Int)) 0

/-- Parse an unsigned base-10 digit string: nonempty, digits only. -/
def parseDigits (cs : List Char) : Option Int :=
  if cs.isEmpty then none
  else if cs.all Char.isDigit then some (digitsVal cs) else none

/-- Parse an optionally signed base-10 integer string, the common behaviour
of `strconv.ParseInt(s, 10, _)` and `big.Int.SetString(s, 10)` used by
`decimal.NewFromString` for the mantissa and exponent. -/
def parseSignedDigits (cs : List Char) : Option Int :=
  match cs with
  | '+' :: rest => parseDigits rest
  | '-' :: rest => (parseDigits rest).map Int.neg
  | _ => parseDigits cs

/-- Split a character list at the first `e` or `E`, as
`strings.IndexAny(value, "Ee")` does in `decimal.NewFromString`:
returns the mantissa part and, when an exponent marker exists,
the characters after it. -/
def splitExp : List Char → List Char × Option (List Char)
  | [] => ([], none)
  | c :: rest =>
    if c = 'e' ∨ c = 'E' then ([], some rest)
    else
      let p := splitExp rest
      (c :: p.1, p.2)

/-- Split the mantissa at its decimal point: `none` when more than one
point occurs (shopspring rejects those), otherwise the integer digits and,
when a point exists, the characters after it. -/
def splitDot : List Char → Option (List Char × Option (List Char))
  | [] => some ([], none)
  | c :: rest =>
    if c = '.' then
      if rest.contains '.' then none else some ([], some rest)
    else
      match splitDot rest with
      | none => none
      | some (ip, fp) => some (c :: ip, fp)

/-- Embedding of shopspring `decimal.NewFromString`: optional scientific
exponent (`int32`-bounded), at most one decimal point, optionally signed
mantissa digits. `none` is the error return. -/
def NewFromString (s : String) : Option Dec :=
  let me := splitExp s.toList
  let expRes : Option Int :=
    match me.2 with
    | none => some 0
    | some ecs =>
      match parseSignedDigits ecs with
      | some e => if -(2 ^ 31) ≤ e ∧ e < 2 ^ 31 then some e else none
      | none => none
  match expRes with
  | none => none
  | some exp0 =>
    match splitDot me.1 with
    | none => none
    | some (ip, fp) =>
      let fracDigits := fp.getD []
      match parseSignedDigits (ip ++ fracDigits) with
      | none => none
      | some v => some ⟨v, exp0 - fracDigits.length⟩

example : NewFromString "5" = some ⟨5, 0⟩ := by decide
example : NewFromString "7.5" = some ⟨75, -1⟩ := by decide
example : NewFromString "-1" = some ⟨-1, 0⟩ := by decide
example : NewFromString "NaN" = none := by decide
example : NewFromString "" = none := by decide
example : NewFromString "1e2" = some ⟨1, 2⟩ := by decide
example : NewFromString "0.001" = some ⟨1, -3⟩ := by decide
example : Dec.eqB ⟨75, -1⟩ (Dec.add ⟨5, 0⟩ ⟨25, -1⟩) = true := by decide

/-- Embedding of the `OrderQueue` struct: the FIFO list of synthetic
individual order quantities at one price level (the mutex is concurrency
plumbing with no algorithmic content). -/
structure OrderQueue where
  orders : List Dec
deriving DecidableEq, Repr

/-- `OrderQueue.sum`: fold `Decimal.Add` over the orders starting from
`decimal.Zero`. -/
def qsum (orders : List Dec) : Dec :=
  orders.foldl Dec.add Dec.zero

/-- Inner loop of `OrderQueue.largestOrderIndex`: scan the remaining
orders, replacing the best index/value whenever a strictly greater entry
appears, so the lowest index wins on ties. -/
def largestAux : List Dec → Nat → Dec → Nat → Nat × Dec
  | [], bestIdx, best, _ => (bestIdx, best)
  | q :: rest, bestIdx, best, i =>
    if Dec.gtB q best then largestAux rest i q (i + 1)
    else largestAux rest bestIdx best (i + 1)

/-- `OrderQueue.largestOrderIndex`: `-1` on an empty queue, otherwise the
index found by the scan starting from index 0. -/
def largestOrderIndex (orders : List Dec) : Int :=
  match orders with
  | [] => -1
  | x :: xs => ((largestAux xs 0 x 1).1 : Int)

/-- Element read `orders[i]`, with `decimal.Zero` standing in for the
out-of-range reads that cannot occur in the source. -/
def getq (orders : List Dec) (i : Nat) : Dec :=
  orders.getD i Dec.zero

/-- The back-to-front exact-match removal loop of `updateQueue`:
remove the entry nearest the back whose value equals `diff`;
`none` when no entry matches (`removed == false`). -/
def removeExact : List Dec → Dec → Option (List Dec)
  | [], _ => none
  | x :: xs, d =>
    match removeExact xs d with
    | some ys => some (x :: ys)
    | none => if Dec.eqB x d then some xs else none

/-- The reduce-largest fallback of `updateQueue`: if the queue is nonempty,
either subtract `diff` from the largest order (when it exceeds `diff`) or
remove that order entirely. -/
def reduceLargest (orders : List Dec) (diff : Dec) : List Dec :=
  let largestIdx := largestOrderIndex orders
  if 0 ≤ largestIdx then
    let i := largestIdx.toNat
    if Dec.gtB (getq orders i) diff then
      orders.set i (Dec.sub (getq orders i) diff)
    else
      orders.eraseIdx i
  else orders

/-- A Go `map[string]*OrderQueue`, embedded as an association list. -/
abbrev SideMap := List (String × OrderQueue)

/-- Go map read `side[price]`. -/
def mapLookup (m : SideMap) (k : String) : Option OrderQueue :=
  match m with
  | [] => none
  | (k0, v0) :: rest => if k0 = k then some v0 else mapLookup rest k

/-- Go map write `side[price] = q`: replace the binding in place, or add
a fresh one. -/
def mapInsert (m : SideMap) (k : String) (v : OrderQueue) : SideMap :=
  match m with
  | [] => [(k, v)]
  | (k0, v0) :: rest =>
    if k0 = k then (k, v) :: rest else (k0, v0) :: mapInsert rest k v

/-- Go map `delete(side, price)`. -/
def mapErase (m : SideMap) (k : String) : SideMap :=
  match m with
  | [] => []
  | (k0, v0) :: rest =>
    if k0 = k then rest else (k0, v0) :: mapErase rest k

/-- Embedding of `L3OrderBook.updateQueue`, the core reconstruction step
for one side, one price and a parsed nonzero quantity. -/
def updateQueue (side : SideMap) (price : String) (newQty : Dec) : SideMap :=
  match mapLookup side price with
  | none => mapInsert side price ⟨[newQty]⟩
  | some queue =>
    let oldSum := qsum queue.orders
    if Dec.gtB newQty oldSum then
      mapInsert side price ⟨queue.orders ++ [Dec.sub newQty oldSum]⟩
    else if Dec.ltB newQty oldSum then
      let diff := Dec.sub oldSum newQty
      match removeExact queue.orders diff with
      | some os => mapInsert side price ⟨os⟩
      | none => mapInsert side price ⟨reduceLargest queue.orders diff⟩
    else side

/-- Embedding of the `L3OrderBook` struct (without its mutex). -/
structure L3OrderBook where
  bids : SideMap
  asks : SideMap
  symbol : String
  lastID : Int
deriving DecidableEq, Repr

/-- `NewL3OrderBook`. -/
def NewL3OrderBook (symbol : String) : L3OrderBook :=
  ⟨[], [], symbol, 0⟩

/-- Embedding of the `binanceWSUpdate` wire struct; the Go source declares
an exported `U` and an unexported `u`, both tagged `json:"u"`. -/
structure binanceWSUpdate where
  U : Int
  u : Int
  B : List (List String)
  A : List (List String)
deriving DecidableEq, Repr

/-- Embedding of the `binanceRESTResp` wire struct. -/
structure binanceRESTResp where
  LastUpdateID : Int
  Bids : List (List String)
  Asks : List (List String)
deriving DecidableEq, Repr

/-- One iteration of the per-change loops in `applyDelta`: skip changes
shorter than a price/quantity pair, skip quantity parse failures, delete
the level on a zero quantity, otherwise run `updateQueue`. -/
def applyChange (side : SideMap) (change : List String) : SideMap :=
  match change with
  | price :: qtyStr :: _ =>
    match NewFromString qtyStr with
    | none => side
    | some newQty =>
      if Dec.isZero newQty then mapErase side price
      else updateQueue side price newQty
  | _ => side

/-- Embedding of `L3OrderBook.applyDelta`: fold the bid changes, then the
ask changes. -/
def applyDelta (ob : L3OrderBook) (update : binanceWSUpdate) : L3OrderBook :=
  { ob with
    bids := update.B.foldl applyChange ob.bids
    asks := update.A.foldl applyChange ob.asks }

/-- One iteration of the per-level loops in `loadSnapshot`: skip short
entries, parse failures and zero quantities, otherwise install a fresh
single-order queue. -/
def loadChange (side : SideMap) (entry : List String) : SideMap :=
  match entry with
  | price :: qtyStr :: _ =>
    match NewFromString qtyStr with
    | none => side
    | some qty =>
      if Dec.isZero qty then side
      else mapInsert side price ⟨[qty]⟩
  | _ => side

/-- Embedding of `L3OrderBook.loadSnapshot`: clear both sides, rebuild
each from the REST response, set `lastID` to the snapshot id. -/
def loadSnapshot (ob : L3OrderBook) (resp : binanceRESTResp) : L3OrderBook :=
  { ob with
    bids := resp.Bids.foldl loadChange []
    asks := resp.Asks.foldl loadChange []
    lastID := resp.LastUpdateID }

/-- The Go zero value `decimal.Decimal{}`, produced by ignored parse
errors and by the unassigned `var maxOrder, avgOrder` declarations. -/
def Dec.empty : Dec := ⟨0, 0⟩

/-- `Decimal.Div`, which is `DivRound` at shopspring's default
`DivisionPrecision` of 16: t-quotient and t-remainder of the aligned
mantissas (big.Int `QuoRem`), then round half away from zero at the 16th
decimal place. Division by a zero decimal panics in Go and is unreachable
here (the only divisor is a positive order count). -/
def Dec.div (d d2 : Dec) : Dec :=
  let e : Int := d.exp - d2.exp + 16
  let aa : Int := if 0 ≤ e then d.value * 10 ^ e.toNat else d.value
  let bb : Int := if 0 ≤ e then d2.value else d2.value * 10 ^ (-e).toNat
  let q : Int := aa.tdiv bb
  let r : Int := aa.tmod bb
  if 2 * r.natAbs < bb.natAbs then ⟨q, -16⟩
  else if d.value * d2.value < 0 then ⟨q - 1, -16⟩
  else ⟨q + 1, -16⟩

/-- The price string parsed with the ignored-error pattern
`priceDecimal, _ := decimal.NewFromString(price)`: failures yield the
zero value. Also the key ordering used by the snapshot sorts. -/
def decVal (s : String) : Dec :=
  (NewFromString s).getD Dec.empty

/-- The max-order loop of `getL3Snapshot`: start from `orders[0]` and
replace whenever a strictly greater entry appears. -/
def maxOf (orders : List Dec) : Dec :=
  match orders with
  | [] => Dec.empty
  | x :: xs => xs.foldl (fun m o => if Dec.gtB o m then o else m) x

/-- Embedding of the `L3Level` snapshot entry; `Orders` is `omitempty`
and only populated for the top levels. -/
structure L3Level where
  Price : Dec
  TotalSize : Dec
  OrderCount : Nat
  Orders : Option (List Dec)
  MaxOrder : Dec
  AvgOrder : Dec
deriving DecidableEq, Repr

/-- Embedding of the `L3Snapshot` payload. -/
structure L3Snapshot where
  Bids : List L3Level
  Asks : List L3Level
  Timestamp : Int
  Symbol : String
deriving DecidableEq, Repr

/-- One loop body of the level builders in `getL3Snapshot`: compute the
parsed price, total size, order count, max and average order, and attach
the order list when the level index is below 10. -/
def mkLevel (includeOrders : Bool) (price : String) (queue : OrderQueue) : L3Level :=
  let totalSize := qsum queue.orders
  let orderCount := queue.orders.length
  { Price := decVal price
    TotalSize := totalSize
    OrderCount := orderCount
    Orders := if includeOrders then some queue.orders else none
    MaxOrder := if 0 < orderCount then maxOf queue.orders else Dec.empty
    AvgOrder :=
      if 0 < orderCount then Dec.div totalSize (Dec.NewFromInt orderCount)
      else Dec.empty }

/-- The per-side level loop of `getL3Snapshot` over the already truncated
sorted key list, carrying the running level index for the top-10 test. -/
def buildLevels (side : SideMap) : List String → Nat → List L3Level
  | [], _ => []
  | price :: rest, i =>
    mkLevel (decide (i < 10)) price ((mapLookup side price).getD ⟨[]⟩)
      :: buildLevels side rest (i + 1)

/-- The bid key order: `x` may precede `y` when `x` is not decimal-below
`y` — the non-strict closure of the `sort.Slice` comparator
`pi.GreaterThan(pj)` used for bid prices. -/
def bidOrder (x y : String) : Prop :=
  Dec.ltB (decVal x) (decVal y) = false

/-- The ask key order: `x` may precede `y` when `x` is not decimal-above
`y` — the non-strict closure of the `sort.Slice` comparator
`pi.LessThan(pj)` used for ask prices. -/
def askOrder (x y : String) : Prop :=
  Dec.gtB (decVal x) (decVal y) = false

instance : DecidableRel bidOrder :=
  fun x y => instDecidableEqBool (Dec.ltB (decVal x) (decVal y)) false

instance : DecidableRel askOrder :=
  fun x y => instDecidableEqBool (Dec.gtB (decVal x) (decVal y)) false

/-- Embedding of `L3OrderBook.getL3Snapshot`. Go's `sort.Slice` with the
strict comparators `pi.GreaterThan(pj)` / `pi.LessThan(pj)` yields a
permutation of the keys that is non-strictly sorted by decimal value
(descending for bids, ascending for asks); a sort on the corresponding
non-strict order realizes exactly that contract. The wall-clock stamp
is passed in as `nowMs`. -/
def getL3Snapshot (ob : L3OrderBook) (topLevels : Nat) (nowMs : Int) : L3Snapshot :=
  let bidPrices := (ob.bids.map Prod.fst).insertionSort bidOrder
  let askPrices := (ob.asks.map Prod.fst).insertionSort askOrder
  { Bids := buildLevels ob.bids (bidPrices.take (min topLevels bidPrices.length)) 0
    Asks := buildLevels ob.asks (askPrices.take (min topLevels askPrices.length)) 0
    Timestamp := nowMs
    Symbol := ob.symbol }

/-- Placeholder level used only as the default of positional reads in
theorem statements. -/
def dummyLevel : L3Level :=
  ⟨Dec.empty, Dec.empty, 0, none, Dec.empty, Dec.empty⟩

example :
    applyDelta (NewL3OrderBook "s") ⟨1, 1, [["100.00", "5"]], []⟩ =
      ⟨[("100.00", ⟨[⟨5, 0⟩]⟩)], [], "s", 0⟩ := by decide

example :
    applyDelta ⟨[("100.00", ⟨[⟨5, 0⟩]⟩)], [], "s", 0⟩ ⟨2, 2, [["100.00", "7.5"]], []⟩ =
      ⟨[("100.00", ⟨[⟨5, 0⟩, ⟨25, -1⟩]⟩)], [], "s", 0⟩ := by decide

example :
    applyDelta ⟨[("100.00", ⟨[⟨5, 0⟩, ⟨25, -1⟩]⟩)], [], "s", 0⟩ ⟨3, 3, [["100.00", "5"]], []⟩ =
      ⟨[("100.00", ⟨[⟨5, 0⟩]⟩)], [], "s", 0⟩ := by decide

example :
    applyDelta ⟨[("100.00", ⟨[⟨5, 0⟩, ⟨25, -1⟩]⟩)], [], "s", 0⟩ ⟨4, 4, [["100.00", "6.5"]], []⟩ =
      ⟨[("100.00", ⟨[⟨40, -1⟩, ⟨25, -1⟩]⟩)], [], "s", 0⟩ := by decide

example :
    applyDelta ⟨[("100.00", ⟨[⟨5, 0⟩, ⟨25, -1⟩]⟩)], [], "s", 0⟩ ⟨5, 5, [["100.00", "0.1"]], []⟩ =
      ⟨[("100.00", ⟨[⟨25, -1⟩]⟩)], [], "s", 0⟩ := by decide

example :
    applyDelta ⟨[("100.00", ⟨[⟨5, 0⟩]⟩)], [], "s", 0⟩ ⟨6, 6, [["100.00", "0"]], []⟩ =
      ⟨[], [], "s", 0⟩ := by decide

/-- §3 Order Queue invariant: nonempty, with strictly positive entries. -/
def queueOK (q : OrderQueue) : Prop :=
  q.orders ≠ [] ∧ ∀ x ∈ q.orders, 0 < x.toRat

/-- §3 Side Map invariant: every retained queue satisfies `queueOK`
(in particular no empty queue is retained). -/
def sideOK (m : SideMap) : Prop :=
  ∀ p ∈ m, queueOK p.2

/-- Both sides of a book satisfy the `sideOK` invariant. -/
def bookOK (ob : L3OrderBook) : Prop :=
  sideOK ob.bids ∧ sideOK ob.asks

/-- A wire change/level is valid when its quantity string, if it parses at
all, denotes a nonnegative number — the §6 contract of the exchange feed
(quantities are unsigned decimal strings). -/
def validChange (c : List String) : Bool :=
  match NewFromString (c.getD 1 "") with
  | some v => decide (0 ≤ v.value)
  | none => true

/-- All changes of a delta are valid. -/
def validUpdate (u : binanceWSUpdate) : Bool :=
  u.B.all validChange && u.A.all validChange

/-- All levels of a REST snapshot are valid. -/
def validResp (r : binanceRESTResp) : Bool :=
  r.Bids.all validChange && r.Asks.all validChange

/-- Rounding half away from zero at the 16th decimal place, the documented
behaviour of shopspring division at its default `DivisionPrecision` 16. -/
def roundAway16 (x : ℚ) : ℚ :=
  (if x < 0 then -((⌊|x| * 10 ^ 16 + 1 / 2⌋ : ℤ) : ℚ) else ((⌊|x| * 10 ^ 16 + 1 / 2⌋ : ℤ) : ℚ))
    / 10 ^ 16

theorem align_fst (a b : Dec) :
    (((Dec.align a b).1 : ℚ)) * (10 : ℚ) ^ (min a.exp b.exp) = a.toRat := by
  unfold Dec.align Dec.toRat
  have hm : min a.exp b.exp ≤ a.exp := min_le_left _ _
  have hcast : ((a.exp - min a.exp b.exp).toNat : ℤ) = a.exp - min a.exp b.exp :=
    Int.toNat_of_nonneg (by omega)
  push_cast
  rw [← zpow_natCast (10 : ℚ), hcast, mul_assoc, ← zpow_add₀ (by norm_num : (10 : ℚ) ≠ 0)]
  ring_nf

theorem align_snd (a b : Dec) :
    (((Dec.align a b).2 : ℚ)) * (10 : ℚ) ^ (min a.exp b.exp) = b.toRat := by
  unfold Dec.align Dec.toRat
  have hm : min a.exp b.exp ≤ b.exp := min_le_right _ _
  have hcast : ((b.exp - min a.exp b.exp).toNat : ℤ) = b.exp - min a.exp b.exp :=
    Int.toNat_of_nonneg (by omega)
  push_cast
  rw [← zpow_natCast (10 : ℚ), hcast, mul_assoc, ← zpow_add₀ (by norm_num : (10 : ℚ) ≠ 0)]
  ring_nf

theorem pow_ne (e : Int) : (10 : ℚ) ^ e ≠ 0 :=
  zpow_ne_zero e (by norm_num)

theorem pow_pos10 (e : Int) : 0 < (10 : ℚ) ^ e :=
  zpow_pos (by norm_num) e

theorem toRat_add (a b : Dec) : (Dec.add a b).toRat = a.toRat + b.toRat := by
  have h1 := align_fst a b
  have h2 := align_snd a b
  unfold Dec.toRat Dec.add
  simp only at h1 h2 ⊢
  push_cast
  rw [add_mul, h1, h2]
  unfold Dec.toRat
  ring

theorem toRat_sub (a b : Dec) : (Dec.sub a b).toRat = a.toRat - b.toRat := by
  have h1 := align_fst a b
  have h2 := align_snd a b
  unfold Dec.toRat Dec.sub
  simp only at h1 h2 ⊢
  push_cast
  rw [sub_mul, h1, h2]
  unfold Dec.toRat
  ring

theorem eqB_iff (a b : Dec) : Dec.eqB a b = true ↔ a.toRat = b.toRat := by
  rw [← align_fst a b, ← align_snd a b]
  unfold Dec.eqB
  constructor
  · intro h
    simp only [decide_eq_true_eq] at h
    rw [h]
  · intro h
    have := mul_right_cancel₀ (pow_ne (min a.exp b.exp)) h
    simp only [decide_eq_true_eq]
    exact_mod_cast this

theorem ltB_iff (a b : Dec) : Dec.ltB a b = true ↔ a.toRat < b.toRat := by
  rw [← align_fst a b, ← align_snd a b]
  unfold Dec.ltB
  rw [mul_lt_mul_right (pow_pos10 (min a.exp b.exp))]
  simp only [decide_eq_true_eq]
  exact_mod_cast Iff.rfl

theorem gtB_iff (a b : Dec) : Dec.gtB a b = true ↔ b.toRat < a.toRat := by
  rw [← align_fst a b, ← align_snd a b]
  unfold Dec.gtB
  rw [mul_lt_mul_right (pow_pos10 (min a.exp b.exp))]
  simp only [decide_eq_true_eq]
  exact_mod_cast Iff.rfl

theorem toRat_pos_iff (d : Dec) : 0 < d.toRat ↔ 0 < d.value := by
  unfold Dec.toRat
  rw [mul_pos_iff_of_pos_right (pow_pos10 d.exp)]
  exact_mod_cast Iff.rfl

theorem isZero_iff (d : Dec) : d.isZero = true ↔ d.toRat = 0 := by
  unfold Dec.isZero Dec.toRat
  rw [mul_eq_zero]
  simp [pow_ne d.exp, decide_eq_true_eq]

theorem toRat_zero : Dec.zero.toRat = 0 := by
  unfold Dec.zero Dec.toRat
  norm_num

theorem qsum_foldl_toRat (l : List Dec) (acc : Dec) :
    (l.foldl Dec.add acc).toRat = acc.toRat + (l.map Dec.toRat).sum := by
  induction l generalizing acc with
  | nil => simp
  | cons x xs ih =>
    simp only [List.foldl_cons, List.map_cons, List.sum_cons]
    rw [ih, toRat_add]
    ring

theorem toRat_qsum (l : List Dec) : (qsum l).toRat = (l.map Dec.toRat).sum := by
  unfold qsum
  rw [qsum_foldl_toRat, toRat_zero, zero_add]

theorem removeExact_none_iff (l : List Dec) (d : Dec) :
    removeExact l d = none ↔ ∀ x ∈ l, ¬ (Dec.eqB x d = true) := by
  induction l with
  | nil => simp [removeExact]
  | cons x xs ih =>
    unfold removeExact
    cases hm : removeExact xs d with
    | some ys =>
      simp only [reduceCtorEq, false_iff]
      intro hall
      have hnone : removeExact xs d = none :=
        ih.mpr fun y hy => hall y (List.mem_cons_of_mem x hy)
      rw [hnone] at hm
      exact absurd hm (by simp)
    | none =>
      have hxs : ∀ y ∈ xs, ¬ (Dec.eqB y d = true) := ih.mp hm
      by_cases hx : Dec.eqB x d = true
      · rw [if_pos hx]
        simp only [reduceCtorEq, false_iff]
        intro hall
        exact hall x (List.mem_cons_self x xs) hx
      · rw [if_neg hx]
        simp only [true_iff]
        intro y hy
        rcases List.mem_cons.mp hy with rfl | hy2
        · exact hx
        · exact hxs y hy2

theorem removeExact_some (l : List Dec) (d : Dec) (os : List Dec)
    (h : removeExact l d = some os) :
    ∃ l1 x l2, l = l1 ++ x :: l2 ∧ Dec.eqB x d = true ∧
      (∀ y ∈ l2, ¬ (Dec.eqB y d = true)) ∧ os = l1 ++ l2 := by
  induction l generalizing os with
  | nil => simp [removeExact] at h
  | cons x xs ih =>
    unfold removeExact at h
    cases hm : removeExact xs d with
    | some ys =>
      rw [hm] at h
      obtain ⟨l1, y, l2, hxs, hy, hl2, hys⟩ := ih ys hm
      refine ⟨x :: l1, y, l2, by simp [hxs], hy, hl2, ?_⟩
      simp only [Option.some.injEq] at h
      simp [← h, hys]
    | none =>
      rw [hm] at h
      by_cases hx : Dec.eqB x d = true
      · rw [if_pos hx] at h
        simp only [Option.some.injEq] at h
        exact ⟨[], x, xs, by simp, hx, (removeExact_none_iff xs d).mp hm, by simp [← h]⟩
      · rw [if_neg hx] at h
        exact absurd h (by simp)

theorem largestAux_spec (rest : List Dec) (full : List Dec) (bestIdx : Nat) (best : Dec)
    (i : Nat) (hdrop : full.drop i = rest) (hlen : i + rest.length = full.length)
    (hbest : bestIdx < i) (hbv : getq full bestIdx = best)
    (hle : ∀ j < i, (getq full j).toRat ≤ best.toRat)
    (hstrict : ∀ j < bestIdx, (getq full j).toRat < best.toRat) :
    (largestAux rest bestIdx best i).1 < full.length ∧
    getq full (largestAux rest bestIdx best i).1 = (largestAux rest bestIdx best i).2 ∧
    (∀ j < full.length, (getq full j).toRat ≤ (largestAux rest bestIdx best i).2.toRat) ∧
    (∀ j < (largestAux rest bestIdx best i).1,
      (getq full j).toRat < (largestAux rest bestIdx best i).2.toRat) := by
  induction rest generalizing bestIdx best i with
  | nil =>
    simp only [largestAux]
    have hif : i = full.length := by simpa using hlen
    exact ⟨by omega, hbv, fun j hj => hle j (by omega), hstrict⟩
  | cons q rest2 ih =>
    have hi : i < full.length := by simp at hlen; omega
    have hq : getq full i = q := by
      have h0 := List.getElem?_drop full i 0
      rw [hdrop] at h0
      unfold getq
      rw [List.getD_eq_getElem?_getD, ← Nat.add_zero i, ← h0]
      simp
    have hdrop2 : full.drop (i + 1) = rest2 := by
      have h1 : full.drop (i + 1) = (full.drop i).drop 1 := by
        rw [List.drop_drop]
      rw [h1, hdrop]
      simp
    have hlen2 : (i + 1) + rest2.length = full.length := by simp at hlen ⊢; omega
    unfold largestAux
    by_cases hgt : Dec.gtB q best = true
    · rw [if_pos hgt]
      have hbq : best.toRat < q.toRat := (gtB_iff q best).mp hgt
      exact ih i q (i + 1) hdrop2 hlen2 (by omega) hq
        (fun j hj => by
          rcases Nat.lt_or_ge j i with hji | hji
          · exact le_of_lt (lt_of_le_of_lt (hle j hji) hbq)
          · have : j = i := by omega
            rw [this, hq])
        (fun j hj => lt_of_le_of_lt (hle j hj) hbq)
    · rw [if_neg hgt]
      have hqb : q.toRat ≤ best.toRat := by
        have := (gtB_iff q best).not.mp hgt
        exact le_of_not_lt this
      exact ih bestIdx best (i + 1) hdrop2 hlen2 (by omega) hbv
        (fun j hj => by
          rcases Nat.lt_or_ge j i with hji | hji
          · exact hle j hji
          · have : j = i := by omega
            rw [this, hq]
            exact hqb)
        hstrict

theorem largestOrderIndex_spec (l : List Dec) (hl : l ≠ []) :
    0 ≤ largestOrderIndex l ∧
    (largestOrderIndex l).toNat < l.length ∧
    (∀ j < l.length, (getq l j).toRat ≤ (getq l (largestOrderIndex l).toNat).toRat) ∧
    (∀ j < (largestOrderIndex l).toNat,
      (getq l j).toRat < (getq l (largestOrderIndex l).toNat).toRat) := by
  match l, hl with
  | x :: xs, _ =>
    have hspec := largestAux_spec xs (x :: xs) 0 x 1 (by simp) (by simp [Nat.add_comm])
      (by omega) (by simp [getq])
      (fun j hj => by
        have hj0 : j = 0 := by omega
        simp [hj0, getq])
      (fun j hj => by omega)
    unfold largestOrderIndex
    have htn : ((((largestAux xs 0 x 1).1 : Nat) : Int)).toNat = (largestAux xs 0 x 1).1 := by
      simp
    refine ⟨by positivity, ?_, ?_, ?_⟩
    · rw [htn]; exact hspec.1
    · rw [htn]
      intro j hj
      rw [hspec.2.1]
      exact hspec.2.2.1 j hj
    · rw [htn]
      intro j hj
      rw [hspec.2.1]
      exact hspec.2.2.2 j hj

theorem toRat_nonneg_iff (d : Dec) : 0 ≤ d.toRat ↔ 0 ≤ d.value := by
  unfold Dec.toRat
  rw [mul_nonneg_iff_of_pos_right (pow_pos10 d.exp)]
  exact_mod_cast Iff.rfl

theorem mapLookup_mem (m : SideMap) (k : String) (v : OrderQueue)
    (h : mapLookup m k = some v) : (k, v) ∈ m := by
  induction m with
  | nil => simp [mapLookup] at h
  | cons p rest ih =>
    unfold mapLookup at h
    by_cases hk : p.1 = k
    · rw [if_pos hk] at h
      simp only [Option.some.injEq] at h
      have hkv : (k, v) = p := by
        rw [← hk, ← h]
      rw [hkv]
      exact List.mem_cons_self p rest
    · rw [if_neg hk] at h
      exact List.mem_cons_of_mem p (ih h)

theorem sideOK_insert (m : SideMap) (k : String) (v : OrderQueue)
    (hm : sideOK m) (hv : queueOK v) : sideOK (mapInsert m k v) := by
  induction m with
  | nil =>
    intro p hp
    simp only [mapInsert, List.mem_singleton] at hp
    rw [hp]
    exact hv
  | cons p0 rest ih =>
    intro p hp
    unfold mapInsert at hp
    by_cases hk : p0.1 = k
    · rw [if_pos hk] at hp
      rcases List.mem_cons.mp hp with heq | hp2
      · rw [heq]
        exact hv
      · exact hm p (List.mem_cons_of_mem p0 hp2)
    · rw [if_neg hk] at hp
      rcases List.mem_cons.mp hp with heq | hp2
      · rw [heq]
        exact hm p0 (List.mem_cons_self p0 rest)
      · exact ih (fun q hq => hm q (List.mem_cons_of_mem p0 hq)) p hp2

theorem sideOK_erase (m : SideMap) (k : String) (hm : sideOK m) :
    sideOK (mapErase m k) := by
  induction m with
  | nil => intro p hp; simp [mapErase] at hp
  | cons p0 rest ih =>
    intro p hp
    unfold mapErase at hp
    by_cases hk : p0.1 = k
    · rw [if_pos hk] at hp
      exact hm p (List.mem_cons_of_mem p0 hp)
    · rw [if_neg hk] at hp
      rcases List.mem_cons.mp hp with heq | hp2
      · rw [heq]
        exact hm p0 (List.mem_cons_self p0 rest)
      · exact ih (fun q hq => hm q (List.mem_cons_of_mem p0 hq)) p hp2

theorem reduceLargest_ok (l : List Dec) (d : Dec)
    (hne : l ≠ []) (hpos : ∀ x ∈ l, 0 < x.toRat)
    (hdlt : d.toRat < (l.map Dec.toRat).sum) :
    reduceLargest l d ≠ [] ∧ ∀ x ∈ reduceLargest l d, 0 < x.toRat := by
  obtain ⟨hnn, hilt, hmax, _⟩ := largestOrderIndex_spec l hne
  unfold reduceLargest
  rw [if_pos hnn]
  by_cases hgt : Dec.gtB (getq l (largestOrderIndex l).toNat) d = true
  · rw [if_pos hgt]
    constructor
    · intro hcon
      have := congrArg List.length hcon
      rw [List.length_set] at this
      exact hne (List.eq_nil_of_length_eq_zero this)
    · intro x hx
      rcases List.mem_or_eq_of_mem_set hx with hx2 | rfl
      · exact hpos x hx2
      · rw [toRat_sub]
        have := (gtB_iff _ _).mp hgt
        linarith
  · rw [if_neg hgt]
    have hlen2 : 2 ≤ l.length := by
      by_contra hcon
      have h1 : l.length = 1 := by
        have := List.length_pos.mpr hne
        omega
      obtain ⟨a, rfl⟩ : ∃ a, l = [a] := by
        match l, h1 with
        | [a], _ => exact ⟨a, rfl⟩
      have hi0 : (largestOrderIndex [a]).toNat = 0 := by
        simp only [List.length_singleton] at hilt
        omega
      rw [hi0] at hgt
      have hga : getq [a] 0 = a := by simp [getq]
      rw [hga] at hgt
      have hda : ¬ (d.toRat < a.toRat) := fun hc => hgt ((gtB_iff a d).mpr hc)
      simp only [List.map_cons, List.map_nil, List.sum_cons, List.sum_nil, add_zero] at hdlt
      exact hda hdlt
    constructor
    · intro hcon
      have := congrArg List.length hcon
      rw [List.length_eraseIdx, if_pos hilt] at this
      simp only [List.length_nil] at this
      omega
    · intro x hx
      exact hpos x ((List.eraseIdx_sublist l _).mem hx)

theorem updateQueue_ok (side : SideMap) (price : String) (newQty : Dec)
    (hside : sideOK side) (hpos : 0 < newQty.toRat) :
    sideOK (updateQueue side price newQty) := by
  unfold updateQueue
  cases hlk : mapLookup side price with
  | none =>
    refine sideOK_insert side price ⟨[newQty]⟩ hside ⟨by simp, ?_⟩
    intro x hx
    simp only [List.mem_singleton] at hx
    rw [hx]
    exact hpos
  | some queue =>
    have hq : queueOK queue := hside (price, queue) (mapLookup_mem side price queue hlk)
    dsimp only
    by_cases hgt : Dec.gtB newQty (qsum queue.orders) = true
    · rw [if_pos hgt]
      refine sideOK_insert side price ⟨queue.orders ++ [Dec.sub newQty (qsum queue.orders)]⟩
        hside ⟨by simp, ?_⟩
      intro x hx
      rcases List.mem_append.mp hx with hx1 | hx2
      · exact hq.2 x hx1
      · simp only [List.mem_singleton] at hx2
        rw [hx2, toRat_sub]
        have := (gtB_iff newQty (qsum queue.orders)).mp hgt
        linarith
    · rw [if_neg hgt]
      by_cases hlt : Dec.ltB newQty (qsum queue.orders) = true
      · rw [if_pos hlt]
        have hsum : (qsum queue.orders).toRat = (queue.orders.map Dec.toRat).sum :=
          toRat_qsum queue.orders
        have hql : newQty.toRat < (queue.orders.map Dec.toRat).sum := by
          have := (ltB_iff newQty (qsum queue.orders)).mp hlt
          linarith
        cases hre : removeExact queue.orders (Dec.sub (qsum queue.orders) newQty) with
        | some os =>
          obtain ⟨l1, x, l2, hdec, hxeq, _, hos⟩ :=
            removeExact_some queue.orders (Dec.sub (qsum queue.orders) newQty) os hre
          refine sideOK_insert side price ⟨os⟩ hside ⟨?_, ?_⟩
          · intro hcon
            have hcon2 : os = [] := hcon
            rw [hcon2] at hos
            obtain ⟨h1, h2⟩ := List.append_eq_nil.mp hos.symm
            rw [h1, h2] at hdec
            simp only [List.nil_append] at hdec
            have hx1 : x.toRat = (Dec.sub (qsum queue.orders) newQty).toRat :=
              (eqB_iff x (Dec.sub (qsum queue.orders) newQty)).mp hxeq
            rw [toRat_sub, hsum, hdec] at hx1
            simp only [List.map_cons, List.map_nil, List.sum_cons, List.sum_nil,
              add_zero] at hx1
            linarith
          · intro y hy
            rw [hos] at hy
            have hyin : y ∈ queue.orders := by
              rw [hdec]
              rcases List.mem_append.mp hy with hy1 | hy2
              · exact List.mem_append.mpr (Or.inl hy1)
              · exact List.mem_append.mpr (Or.inr (List.mem_cons_of_mem x hy2))
            exact hq.2 y hyin
        | none =>
          have hdlt : (Dec.sub (qsum queue.orders) newQty).toRat <
              (queue.orders.map Dec.toRat).sum := by
            rw [toRat_sub, hsum]
            linarith
          obtain ⟨hne2, hpos2⟩ :=
            reduceLargest_ok queue.orders (Dec.sub (qsum queue.orders) newQty) hq.1 hq.2 hdlt
          exact sideOK_insert side price
            ⟨reduceLargest queue.orders (Dec.sub (qsum queue.orders) newQty)⟩
            hside ⟨hne2, hpos2⟩
      · rw [if_neg hlt]
        exact hside

theorem applyChange_ok (side : SideMap) (c : List String)
    (hside : sideOK side) (hc : validChange c = true) :
    sideOK (applyChange side c) := by
  match c with
  | [] => exact hside
  | [p] => exact hside
  | p :: q :: rest =>
    unfold applyChange
    dsimp only
    cases hp : NewFromString q with
    | none => exact hside
    | some v =>
      dsimp only
      by_cases hz : Dec.isZero v = true
      · rw [if_pos hz]
        exact sideOK_erase side p hside
      · rw [if_neg hz]
        apply updateQueue_ok side p v hside
        have hval : 0 ≤ v.value := by
          unfold validChange at hc
          have hgd : (p :: q :: rest).getD 1 "" = q := rfl
          rw [hgd, hp] at hc
          simpa using hc
        have hnz : v.value ≠ 0 := by
          intro h0
          exact hz (by unfold Dec.isZero; simp [h0])
        rw [toRat_pos_iff]
        omega

theorem foldl_applyChange_ok (cs : List (List String)) (side : SideMap)
    (hside : sideOK side) (hcs : cs.all validChange = true) :
    sideOK (cs.foldl applyChange side) := by
  induction cs generalizing side with
  | nil => exact hside
  | cons c rest ih =>
    simp only [List.all_cons, Bool.and_eq_true] at hcs
    exact ih (applyChange side c) (applyChange_ok side c hside hcs.1) hcs.2

theorem applyDelta_ok (ob : L3OrderBook) (u : binanceWSUpdate)
    (hob : bookOK ob) (hu : validUpdate u = true) :
    bookOK (applyDelta ob u) := by
  unfold validUpdate at hu
  rw [Bool.and_eq_true] at hu
  exact ⟨foldl_applyChange_ok u.B ob.bids hob.1 hu.1,
         foldl_applyChange_ok u.A ob.asks hob.2 hu.2⟩

theorem loadChange_ok (side : SideMap) (c : List String)
    (hside : sideOK side) (hc : validChange c = true) :
    sideOK (loadChange side c) := by
  match c with
  | [] => exact hside
  | [p] => exact hside
  | p :: q :: rest =>
    unfold loadChange
    dsimp only
    cases hp : NewFromString q with
    | none => exact hside
    | some v =>
      dsimp only
      by_cases hz : Dec.isZero v = true
      · rw [if_pos hz]
        exact hside
      · rw [if_neg hz]
        refine sideOK_insert side p ⟨[v]⟩ hside ⟨by simp, ?_⟩
        intro x hx
        simp only [List.mem_singleton] at hx
        have hval : 0 ≤ v.value := by
          unfold validChange at hc
          have hgd : (p :: q :: rest).getD 1 "" = q := rfl
          rw [hgd, hp] at hc
          simpa using hc
        have hnz : v.value ≠ 0 := by
          intro h0
          exact hz (by unfold Dec.isZero; simp [h0])
        rw [hx, toRat_pos_iff]
        omega

theorem foldl_loadChange_ok (es : List (List String)) (side : SideMap)
    (hside : sideOK side) (hes : es.all validChange = true) :
    sideOK (es.foldl loadChange side) := by
  induction es generalizing side with
  | nil => exact hside
  | cons c rest ih =>
    simp only [List.all_cons, Bool.and_eq_true] at hes
    exact ih (loadChange side c) (loadChange_ok side c hside hes.1) hes.2

theorem sideOK_nil : sideOK [] := by
  intro p hp
  exact absurd hp (List.not_mem_nil p)

theorem loadSnapshot_ok (ob : L3OrderBook) (resp : binanceRESTResp)
    (hresp : validResp resp = true) : bookOK (loadSnapshot ob resp) := by
  unfold validResp at hresp
  rw [Bool.and_eq_true] at hresp
  exact ⟨foldl_loadChange_ok resp.Bids [] sideOK_nil hresp.1,
         foldl_loadChange_ok resp.Asks [] sideOK_nil hresp.2⟩

theorem mkLevel_Price (b : Bool) (p : String) (q : OrderQueue) :
    (mkLevel b p q).Price = decVal p := rfl

theorem mkLevel_TotalSize (b : Bool) (p : String) (q : OrderQueue) :
    (mkLevel b p q).TotalSize = qsum q.orders := rfl

theorem mkLevel_OrderCount (b : Bool) (p : String) (q : OrderQueue) :
    (mkLevel b p q).OrderCount = q.orders.length := rfl

theorem mkLevel_Orders (b : Bool) (p : String) (q : OrderQueue) :
    (mkLevel b p q).Orders = if b then some q.orders else none := rfl

theorem mkLevel_AvgOrder (b : Bool) (p : String) (q : OrderQueue) :
    (mkLevel b p q).AvgOrder =
      if 0 < q.orders.length then
        Dec.div (qsum q.orders) (Dec.NewFromInt q.orders.length)
      else Dec.empty := rfl

theorem buildLevels_mem (side : SideMap) (keys : List String) (i : Nat) (lvl : L3Level)
    (h : lvl ∈ buildLevels side keys i) :
    ∃ b k, k ∈ keys ∧ lvl = mkLevel b k ((mapLookup side k).getD ⟨[]⟩) := by
  induction keys generalizing i with
  | nil => simp [buildLevels] at h
  | cons p rest ih =>
    unfold buildLevels at h
    rcases List.mem_cons.mp h with heq | h2
    · exact ⟨decide (i < 10), p, List.mem_cons_self p rest, heq⟩
    · obtain ⟨b, k, hk, he⟩ := ih (i + 1) h2
      exact ⟨b, k, List.mem_cons_of_mem p hk, he⟩

theorem buildLevels_map_price (side : SideMap) (keys : List String) (i : Nat) :
    (buildLevels side keys i).map L3Level.Price = keys.map decVal := by
  induction keys generalizing i with
  | nil => simp [buildLevels]
  | cons p rest ih =>
    unfold buildLevels
    simp only [List.map_cons, mkLevel_Price]
    rw [ih (i + 1)]

theorem buildLevels_length (side : SideMap) (keys : List String) (i : Nat) :
    (buildLevels side keys i).length = keys.length := by
  induction keys generalizing i with
  | nil => simp [buildLevels]
  | cons p rest ih =>
    unfold buildLevels
    simp only [List.length_cons]
    rw [ih (i + 1)]

theorem buildLevels_getD (side : SideMap) (keys : List String) (i j : Nat)
    (hj : j < keys.length) :
    (buildLevels side keys i).getD j dummyLevel =
      mkLevel (decide (i + j < 10)) (keys.getD j "")
        ((mapLookup side (keys.getD j "")).getD ⟨[]⟩) := by
  induction keys generalizing i j with
  | nil => simp at hj
  | cons p rest ih =>
    cases j with
    | zero =>
      unfold buildLevels
      simp [List.getD_cons_zero]
    | succ j2 =>
      unfold buildLevels
      simp only [List.getD_cons_succ]
      rw [ih (i + 1) j2 (by simpa using hj)]
      have harith : i + 1 + j2 = i + (j2 + 1) := by omega
      rw [harith]

theorem mem_keys_lookup (m : SideMap) (k : String) (h : k ∈ m.map Prod.fst) :
    ∃ v, mapLookup m k = some v ∧ (k, v) ∈ m := by
  induction m with
  | nil => simp at h
  | cons p rest ih =>
    rw [List.map_cons] at h
    rcases List.mem_cons.mp h with heq | h2
    · refine ⟨p.2, ?_, ?_⟩
      · unfold mapLookup
        rw [if_pos heq.symm]
      · have hkp : (k, p.2) = p := by
          rw [heq]
        rw [hkp]
        exact List.mem_cons_self p rest
    · by_cases hk : p.1 = k
      · refine ⟨p.2, ?_, ?_⟩
        · unfold mapLookup
          rw [if_pos hk]
        · have hkp : (k, p.2) = p := by
            rw [← hk]
          rw [hkp]
          exact List.mem_cons_self p rest
      · obtain ⟨v, hv, hmem⟩ := ih h2
        refine ⟨v, ?_, List.mem_cons_of_mem p hmem⟩
        unfold mapLookup
        rw [if_neg hk]
        exact hv

theorem neg_tmod (m B : ℤ) : (-m).tmod B = -(m.tmod B) := by
  rw [Int.tmod_def, Int.tmod_def, Int.neg_tdiv]
  ring

theorem floor_half_int (m B : ℤ) (hB : 0 < B) :
    ⌊(m : ℚ) / (B : ℚ) + 1 / 2⌋ = m / B + (if B ≤ 2 * (m % B) then 1 else 0) := by
  have hd := Int.ediv_add_emod m B
  have hr0 : 0 ≤ m % B := Int.emod_nonneg m (ne_of_gt hB)
  have hrB : m % B < B := Int.emod_lt_of_pos m hB
  have hBq : (0 : ℚ) < (B : ℚ) := by exact_mod_cast hB
  have hmcast : (m : ℚ) = (B : ℚ) * ((m / B : ℤ) : ℚ) + ((m % B : ℤ) : ℚ) := by
    exact_mod_cast hd.symm
  have hval : (m : ℚ) / (B : ℚ) = ((m / B : ℤ) : ℚ) + ((m % B : ℤ) : ℚ) / (B : ℚ) := by
    rw [hmcast, add_div, mul_comm, mul_div_assoc, div_self (ne_of_gt hBq), mul_one]
  rw [hval]
  have hrq0 : (0 : ℚ) ≤ ((m % B : ℤ) : ℚ) := by exact_mod_cast hr0
  have hrqB : ((m % B : ℤ) : ℚ) < (B : ℚ) := by exact_mod_cast hrB
  by_cases hc : B ≤ 2 * (m % B)
  · rw [if_pos hc, Int.floor_eq_iff]
    have h12 : (1 : ℚ) / 2 ≤ ((m % B : ℤ) : ℚ) / (B : ℚ) := by
      rw [div_le_div_iff₀ (by norm_num) hBq]
      have : (B : ℚ) ≤ 2 * ((m % B : ℤ) : ℚ) := by exact_mod_cast hc
      linarith
    have hlt1 : ((m % B : ℤ) : ℚ) / (B : ℚ) < 1 := by
      rw [div_lt_one hBq]
      exact hrqB
    constructor
    · push_cast
      linarith
    · push_cast
      linarith
  · rw [if_neg hc, Int.floor_eq_iff]
    have h12 : ((m % B : ℤ) : ℚ) / (B : ℚ) < 1 / 2 := by
      rw [div_lt_div_iff₀ hBq (by norm_num)]
      have : 2 * ((m % B : ℤ) : ℚ) < (B : ℚ) := by
        exact_mod_cast Int.lt_of_not_ge hc
      linarith
    have hge0 : (0 : ℚ) ≤ ((m % B : ℤ) : ℚ) / (B : ℚ) := div_nonneg hrq0 hBq.le
    constructor
    · push_cast
      linarith
    · push_cast
      linarith

theorem div_toRat (a b : Dec) (hb : 0 < b.value) :
    (Dec.div a b).toRat = roundAway16 (a.toRat / b.toRat) := by
  unfold Dec.div
  dsimp only
  set e : Int := a.exp - b.exp + 16 with he
  set A : Int := if 0 ≤ e then a.value * 10 ^ e.toNat else a.value with hA
  set B : Int := if 0 ≤ e then b.value else b.value * 10 ^ (-e).toNat with hB
  have hten : (10 : ℚ) ≠ 0 := by norm_num
  have hBpos : 0 < B := by
    rw [hB]
    by_cases h : 0 ≤ e
    · rw [if_pos h]
      exact hb
    · rw [if_neg h]
      exact mul_pos hb (pow_pos (by norm_num) _)
  have hbq : (0 : ℚ) < (b.value : ℚ) := by exact_mod_cast hb
  have hBq : (0 : ℚ) < (B : ℚ) := by exact_mod_cast hBpos
  have hsignA : A < 0 ↔ a.value < 0 := by
    rw [hA]
    by_cases h : 0 ≤ e
    · rw [if_pos h]
      constructor
      · intro hlt
        by_contra hcon
        push_neg at hcon
        exact absurd (mul_nonneg hcon (pow_nonneg (by norm_num) _)) (not_le.mpr hlt)
      · intro hlt
        exact mul_neg_of_neg_of_pos hlt (pow_pos (by norm_num) _)
    · rw [if_neg h]
  have hX : (A : ℚ) / (B : ℚ) = (a.value : ℚ) / (b.value : ℚ) * (10 : ℚ) ^ e := by
    rw [hA, hB]
    by_cases h : 0 ≤ e
    · rw [if_pos h, if_pos h]
      have hc : ((10 : ℚ) ^ e.toNat) = (10 : ℚ) ^ e := by
        rw [← zpow_natCast, Int.toNat_of_nonneg h]
      push_cast
      rw [hc]
      ring
    · rw [if_neg h, if_neg h]
      have hc : ((10 : ℚ) ^ (-e).toNat) = (10 : ℚ) ^ (-e) := by
        rw [← zpow_natCast, Int.toNat_of_nonneg (by omega)]
      push_cast
      rw [hc, zpow_neg]
      field_simp
  have hx16 : a.toRat / b.toRat * 10 ^ (16 : ℕ) = (A : ℚ) / (B : ℚ) := by
    rw [hX]
    unfold Dec.toRat
    rw [he, zpow_add₀ hten, zpow_sub₀ hten]
    have h16 : ((10 : ℚ) ^ (16 : ℤ)) = (10 : ℚ) ^ (16 : ℕ) := by
      rw [← zpow_natCast]
      norm_num
    rw [h16]
    field_simp
    ring
  have h16pos : (0 : ℚ) < 10 ^ (16 : ℕ) := by positivity
  have hxneg_iff : a.toRat / b.toRat < 0 ↔ A < 0 := by
    constructor
    · intro hlt
      have hXneg : (A : ℚ) / (B : ℚ) < 0 := by
        rw [← hx16]
        exact mul_neg_of_neg_of_pos hlt h16pos
      rw [div_lt_iff₀ hBq, zero_mul] at hXneg
      exact_mod_cast hXneg
    · intro hlt
      have hXneg : (A : ℚ) / (B : ℚ) < 0 := by
        rw [div_lt_iff₀ hBq, zero_mul]
        exact_mod_cast hlt
      rw [← hx16] at hXneg
      by_contra hcon
      push_neg at hcon
      exact absurd (mul_nonneg hcon h16pos.le) (not_le.mpr hXneg)
  have habs : |a.toRat / b.toRat| * 10 ^ (16 : ℕ) = |(A : ℚ) / (B : ℚ)| := by
    rw [← hx16, abs_mul, abs_of_pos h16pos]
  have hfin : ∀ (V W : ℤ), V = W → Dec.toRat ⟨V, -16⟩ = ((W : ℚ)) / 10 ^ (16 : ℕ) := by
    intro V W hVW
    unfold Dec.toRat
    rw [hVW]
    have hz : ((10 : ℚ) ^ (-16 : ℤ)) = ((10 : ℚ) ^ (16 : ℕ))⁻¹ := by
      rw [show ((-16 : ℤ)) = -(16 : ℤ) by norm_num, zpow_neg, ← zpow_natCast]
      norm_num
    rw [hz, div_eq_mul_inv]
  rcases lt_or_le A 0 with hAneg | hApos
  · -- negative dividend: the Go sign test fires on the round-up branch
    set m : Int := -A with hm
    have hmpos : 0 ≤ m := by omega
    have hAm : A = -m := by omega
    have hqt : A.tdiv B = -(m / B) := by
      rw [hAm, Int.neg_tdiv, Int.tdiv_eq_ediv hmpos hBpos.le]
    have hrt : A.tmod B = -(m % B) := by
      rw [hAm, neg_tmod, Int.tmod_eq_emod hmpos hBpos.le]
    have hr0 : 0 ≤ m % B := Int.emod_nonneg m (ne_of_gt hBpos)
    have hcond : (2 * (A.tmod B).natAbs < B.natAbs) ↔ (2 * (m % B) < B) := by
      rw [hrt, Int.natAbs_neg]
      zify [Int.natAbs_of_nonneg hr0, Int.natAbs_of_nonneg hBpos.le]
    have hAq : (A : ℚ) = -(m : ℚ) := by
      rw [hAm]
      push_cast
      ring
    have hXabs : |(A : ℚ) / (B : ℚ)| = (m : ℚ) / (B : ℚ) := by
      rw [abs_div, abs_of_pos hBq, hAq, abs_neg,
        abs_of_nonneg (by exact_mod_cast hmpos : (0 : ℚ) ≤ (m : ℚ))]
    have hfloor := floor_half_int m B hBpos
    have hR : roundAway16 (a.toRat / b.toRat) =
        (((-(m / B + (if B ≤ 2 * (m % B) then 1 else 0)) : ℤ) : ℚ)) / 10 ^ (16 : ℕ) := by
      unfold roundAway16
      rw [if_pos (hxneg_iff.mpr hAneg), habs, hXabs, hfloor]
      push_cast
      ring
    rw [hR]
    by_cases hc2 : 2 * (m % B) < B
    · rw [if_pos (hcond.mpr hc2)]
      apply hfin
      rw [hqt, if_neg (by omega)]
      try omega
    · rw [if_neg (fun hcc => hc2 (hcond.mp hcc))]
      have hsgn : a.value * b.value < 0 :=
        mul_neg_of_neg_of_pos (hsignA.mp hAneg) hb
      rw [if_pos hsgn]
      apply hfin
      rw [hqt, if_pos (by omega)]
      try omega
  · -- nonnegative dividend
    have hqt : A.tdiv B = A / B := Int.tdiv_eq_ediv hApos hBpos.le
    have hrt : A.tmod B = A % B := Int.tmod_eq_emod hApos hBpos.le
    have hr0 : 0 ≤ A % B := Int.emod_nonneg A (ne_of_gt hBpos)
    have hcond : (2 * (A.tmod B).natAbs < B.natAbs) ↔ (2 * (A % B) < B) := by
      rw [hrt]
      zify [Int.natAbs_of_nonneg hr0, Int.natAbs_of_nonneg hBpos.le]
    have hXabs : |(A : ℚ) / (B : ℚ)| = (A : ℚ) / (B : ℚ) := by
      rw [abs_div, abs_of_pos hBq,
        abs_of_nonneg (by exact_mod_cast hApos : (0 : ℚ) ≤ (A : ℚ))]
    have hfloor := floor_half_int A B hBpos
    have hxnn : ¬ (a.toRat / b.toRat < 0) := fun h =>
      absurd (hxneg_iff.mp h) (not_lt.mpr hApos)
    have hR : roundAway16 (a.toRat / b.toRat) =
        (((A / B + (if B ≤ 2 * (A % B) then 1 else 0) : ℤ) : ℚ)) / 10 ^ (16 : ℕ) := by
      unfold roundAway16
      rw [if_neg hxnn, habs, hXabs, hfloor]
    rw [hR]
    by_cases hc2 : 2 * (A % B) < B
    · rw [if_pos (hcond.mpr hc2)]
      apply hfin
      rw [hqt, if_neg (by omega)]
      try omega
    · rw [if_neg (fun hcc => hc2 (hcond.mp hcc))]
      have hav : 0 ≤ a.value := by
        by_contra hcon
        push_neg at hcon
        exact absurd (hsignA.mpr hcon) (not_lt.mpr hApos)
      have hsgn : ¬ (a.value * b.value < 0) :=
        not_lt.mpr (mul_nonneg hav hb.le)
      rw [if_neg hsgn]
      apply hfin
      rw [hqt, if_pos (by omega)]
      try omega

theorem ltB_false_iff (a b : Dec) : (Dec.ltB a b = false) ↔ b.toRat ≤ a.toRat := by
  rw [← Bool.not_eq_true, ltB_iff, not_lt]

theorem gtB_false_iff (a b : Dec) : (Dec.gtB a b = false) ↔ a.toRat ≤ b.toRat := by
  rw [← Bool.not_eq_true, gtB_iff, not_lt]

theorem bidOrder_iff (x y : String) :
    bidOrder x y ↔ (decVal y).toRat ≤ (decVal x).toRat := by
  unfold bidOrder
  rw [ltB_false_iff]

theorem askOrder_iff (x y : String) :
    askOrder x y ↔ (decVal x).toRat ≤ (decVal y).toRat := by
  unfold askOrder
  rw [gtB_false_iff]

instance : IsTrans String bidOrder :=
  ⟨fun x y z hxy hyz => (bidOrder_iff x z).mpr
    (le_trans ((bidOrder_iff y z).mp hyz) ((bidOrder_iff x y).mp hxy))⟩

instance : IsTotal String bidOrder :=
  ⟨fun x y => by
    rcases le_total (decVal y).toRat (decVal x).toRat with h | h
    · exact Or.inl ((bidOrder_iff x y).mpr h)
    · exact Or.inr ((bidOrder_iff y x).mpr h)⟩

instance : IsTrans String askOrder :=
  ⟨fun x y z hxy hyz => (askOrder_iff x z).mpr
    (le_trans ((askOrder_iff x y).mp hxy) ((askOrder_iff y z).mp hyz))⟩

instance : IsTotal String askOrder :=
  ⟨fun x y => by
    rcases le_total (decVal x).toRat (decVal y).toRat with h | h
    · exact Or.inl ((askOrder_iff x y).mpr h)
    · exact Or.inr ((askOrder_iff y x).mpr h)⟩

theorem bids_sort_sorted (keys : List String) :
    (keys.insertionSort bidOrder).Pairwise
      (fun x y => (decVal y).toRat ≤ (decVal x).toRat) :=
  (List.sorted_insertionSort bidOrder keys).imp fun h => (bidOrder_iff _ _).mp h

theorem asks_sort_sorted (keys : List String) :
    (keys.insertionSort askOrder).Pairwise
      (fun x y => (decVal x).toRat ≤ (decVal y).toRat) :=
  (List.sorted_insertionSort askOrder keys).imp fun h => (askOrder_iff _ _).mp h

theorem toRat_NewFromInt (n : Int) : (Dec.NewFromInt n).toRat = (n : ℚ) := by
  unfold Dec.NewFromInt Dec.toRat
  norm_num

theorem toRat_empty : Dec.empty.toRat = 0 := by
  unfold Dec.empty Dec.toRat
  norm_num

theorem foldl_applyDelta_ok (updates : List binanceWSUpdate) (ob : L3OrderBook)
    (hob : bookOK ob) (hupd : ∀ u ∈ updates, validUpdate u = true) :
    bookOK (updates.foldl applyDelta ob) := by
  induction updates generalizing ob with
  | nil => exact hob
  | cons u rest ih =>
    exact ih (applyDelta ob u)
      (applyDelta_ok ob u hob (hupd u (List.mem_cons_self u rest)))
      (fun v hv => hupd v (List.mem_cons_of_mem u hv))

/-- Claim C1, counterexample: the claim says `applyDelta` writes the
delta's final update id `u` into `last_update_id` whenever `u` is greater;
on a fresh book (watermark 0) a delta with `u = 5` leaves the watermark at
0, not 5. -/
theorem applyDelta_lastID_not_updated :
    (NewL3OrderBook "ethusdt").lastID < 5 ∧
    (applyDelta (NewL3OrderBook "ethusdt") ⟨5, 5, [["100", "1"]], []⟩).lastID ≠ 5 := by
  decide

/-- Claim C1, amended: `applyDelta` leaves `last_update_id` unchanged for
every book and every delta — the Go loop body never touches `ob.lastID`,
which is written only by `loadSnapshot`. -/
theorem applyDelta_lastID_const (ob : L3OrderBook) (u : binanceWSUpdate) :
    (applyDelta ob u).lastID = ob.lastID := rfl

/-- Claim C9: `loadSnapshot` is idempotent — it rebuilds both sides from
the response alone and overwrites the watermark, so applying the same REST
snapshot twice yields exactly the state of applying it once. -/
theorem loadSnapshot_idempotent (ob : L3OrderBook) (resp : binanceRESTResp) :
    loadSnapshot (loadSnapshot ob resp) resp = loadSnapshot ob resp := rfl

/-- Claim C10: a delta change or snapshot entry with fewer than two
elements is skipped (`len(x) < 2` guard) without touching the book, and
the surrounding batch is still processed: deleting the malformed entry
from the batch gives the same result. -/
theorem short_change_skipped (c : List String) (hc : c.length < 2) :
    (∀ side, applyChange side c = side) ∧
    (∀ side, loadChange side c = side) ∧
    (∀ (ob : L3OrderBook) (u1 u2 : Int) (pre post asks2 : List (List String)),
      applyDelta ob ⟨u1, u2, pre ++ c :: post, asks2⟩ =
        applyDelta ob ⟨u1, u2, pre ++ post, asks2⟩) ∧
    (∀ (ob : L3OrderBook) (u1 u2 : Int) (bids2 pre post : List (List String)),
      applyDelta ob ⟨u1, u2, bids2, pre ++ c :: post⟩ =
        applyDelta ob ⟨u1, u2, bids2, pre ++ post⟩) ∧
    (∀ (ob : L3OrderBook) (i : Int) (pre post asks2 : List (List String)),
      loadSnapshot ob ⟨i, pre ++ c :: post, asks2⟩ =
        loadSnapshot ob ⟨i, pre ++ post, asks2⟩) ∧
    (∀ (ob : L3OrderBook) (i : Int) (bids2 pre post : List (List String)),
      loadSnapshot ob ⟨i, bids2, pre ++ c :: post⟩ =
        loadSnapshot ob ⟨i, bids2, pre ++ post⟩) := by
  have hac : ∀ side, applyChange side c = side := by
    intro side
    rcases c with _ | ⟨p, _ | ⟨q2, rest⟩⟩
    · rfl
    · rfl
    · simp only [List.length_cons] at hc
      omega
  have hlc : ∀ side, loadChange side c = side := by
    intro side
    rcases c with _ | ⟨p, _ | ⟨q2, rest⟩⟩
    · rfl
    · rfl
    · simp only [List.length_cons] at hc
      omega
  have hfa : ∀ (s : SideMap) (pre post : List (List String)),
      List.foldl applyChange s (pre ++ c :: post) =
        List.foldl applyChange s (pre ++ post) := by
    intro s pre post
    rw [List.foldl_append, List.foldl_append, List.foldl_cons, hac]
  have hfl : ∀ (s : SideMap) (pre post : List (List String)),
      List.foldl loadChange s (pre ++ c :: post) =
        List.foldl loadChange s (pre ++ post) := by
    intro s pre post
    rw [List.foldl_append, List.foldl_append, List.foldl_cons, hlc]
  refine ⟨hac, hlc, ?_, ?_, ?_, ?_⟩
  · intro ob u1 u2 pre post asks2
    unfold applyDelta
    rw [hfa]
  · intro ob u1 u2 bids2 pre post
    unfold applyDelta
    rw [hfa]
  · intro ob i pre post asks2
    unfold loadSnapshot
    rw [hfl]
  · intro ob i bids2 pre post
    unfold loadSnapshot
    rw [hfl]

/-- Witness for C10 at the concrete malformed change `["100"]` inside a
two-change batch. -/
theorem short_change_skipped_witness :
    (["100"] : List String).length < 2 ∧
    applyDelta (NewL3OrderBook "s") ⟨1, 1, [["100"], ["101", "2"]], []⟩ =
      applyDelta (NewL3OrderBook "s") ⟨1, 1, [["101", "2"]], []⟩ :=
  ⟨by decide,
    (short_change_skipped ["100"] (by decide)).2.2.1
      (NewL3OrderBook "s") 1 1 [] [["101", "2"]] []⟩

/-- Claim C5, counterexample: the claim says parsing rejects negative
quantities; in fact `"-1"` parses successfully to a negative decimal, and
applying such a change stores a negative quantity in an Order Queue. -/
theorem negative_qty_parses_and_stored :
    NewFromString "-1" = some ⟨-1, 0⟩ ∧
    (⟨-1, 0⟩ : Dec).toRat < 0 ∧
    (applyDelta (NewL3OrderBook "s") ⟨1, 1, [["100", "-1"]], []⟩).bids =
      [("100", ⟨[⟨-1, 0⟩]⟩)] := by
  refine ⟨by decide, ?_, by decide⟩
  norm_num [Dec.toRat]

/-- Claim C5, amended: parsing rejects malformed strings such as `"NaN"`,
and a delta change whose quantity string fails to parse is skipped without
touching the side; negative quantity strings, however, parse successfully
(see the counterexample). -/
theorem parse_failure_skips_change :
    NewFromString "NaN" = none ∧
    ∀ (side : SideMap) (price qs : String) (rest : List String),
      NewFromString qs = none → applyChange side (price :: qs :: rest) = side := by
  refine ⟨by decide, ?_⟩
  intro side price qs rest hp
  unfold applyChange
  dsimp only
  rw [hp]

/-- Witness for C5 at the concrete unparseable quantity `"NaN"`. -/
theorem parse_failure_skips_change_witness :
    NewFromString "NaN" = none ∧
    applyChange [("100", ⟨[⟨5, 0⟩]⟩)] ["100", "NaN"] = [("100", ⟨[⟨5, 0⟩]⟩)] :=
  ⟨parse_failure_skips_change.1,
    parse_failure_skips_change.2 [("100", ⟨[⟨5, 0⟩]⟩)] "100" "NaN" [] (by decide)⟩

/-- Claim C2: on an existing level whose parsed new quantity is strictly
below the queue sum, the per-change step of `applyDelta` first removes the
back-most entry equal to the difference (back-to-front scan: the matched
entry has no equal entry after it), and falls back to `reduceLargest`
exactly when no entry equals the difference. -/
theorem updateQueue_removeExact_first (side : SideMap) (price qs : String)
    (rest : List String) (newQty : Dec) (q : OrderQueue)
    (hlk : mapLookup side price = some q)
    (hp : NewFromString qs = some newQty)
    (hnz : Dec.isZero newQty = false)
    (hlt : Dec.ltB newQty (qsum q.orders) = true) :
    (∀ os, removeExact q.orders (Dec.sub (qsum q.orders) newQty) = some os →
      applyChange side (price :: qs :: rest) = mapInsert side price ⟨os⟩ ∧
      ∃ l1 x l2, q.orders = l1 ++ x :: l2 ∧
        Dec.eqB x (Dec.sub (qsum q.orders) newQty) = true ∧
        (∀ y ∈ l2, Dec.eqB y (Dec.sub (qsum q.orders) newQty) = false) ∧
        os = l1 ++ l2) ∧
    (removeExact q.orders (Dec.sub (qsum q.orders) newQty) = none →
      applyChange side (price :: qs :: rest) =
        mapInsert side price ⟨reduceLargest q.orders (Dec.sub (qsum q.orders) newQty)⟩) ∧
    (removeExact q.orders (Dec.sub (qsum q.orders) newQty) = none ↔
      ∀ x ∈ q.orders, Dec.eqB x (Dec.sub (qsum q.orders) newQty) = false) := by
  have hred : ∀ r, removeExact q.orders (Dec.sub (qsum q.orders) newQty) = r →
      applyChange side (price :: qs :: rest) =
        (match r with
          | some os => mapInsert side price ⟨os⟩
          | none =>
            mapInsert side price
              ⟨reduceLargest q.orders (Dec.sub (qsum q.orders) newQty)⟩) := by
    intro r hr
    unfold applyChange
    dsimp only
    rw [hp]
    dsimp only
    rw [if_neg (by simp [hnz])]
    unfold updateQueue
    rw [hlk]
    dsimp only
    have hgt : Dec.gtB newQty (qsum q.orders) = false := by
      rw [gtB_false_iff]
      exact le_of_lt ((ltB_iff newQty (qsum q.orders)).mp hlt)
    rw [if_neg (by simp [hgt]), if_pos hlt, hr]
  refine ⟨?_, ?_, ?_⟩
  · intro os hre
    refine ⟨hred (some os) hre, ?_⟩
    obtain ⟨l1, x, l2, hdec, hxeq, hl2, hos⟩ :=
      removeExact_some q.orders (Dec.sub (qsum q.orders) newQty) os hre
    exact ⟨l1, x, l2, hdec, hxeq,
      fun y hy => Bool.eq_false_iff.mpr (hl2 y hy), hos⟩
  · intro hre
    exact hred none hre
  · rw [removeExact_none_iff]
    constructor
    · intro h x hx
      exact Bool.eq_false_iff.mpr (h x hx)
    · intro h x hx
      rw [h x hx]
      simp

/-- Witness for C2: the spec's scenario S3 — queue `[5, 2.5]`, new
quantity `5`, difference `2.5` removed exactly from the back. -/
theorem updateQueue_removeExact_first_witness :
    (∀ os,
      removeExact [⟨5, 0⟩, ⟨25, -1⟩]
        (Dec.sub (qsum [⟨5, 0⟩, ⟨25, -1⟩]) ⟨5, 0⟩) = some os →
      applyChange [("100", ⟨[⟨5, 0⟩, ⟨25, -1⟩]⟩)] ("100" :: "5" :: []) =
        mapInsert [("100", ⟨[⟨5, 0⟩, ⟨25, -1⟩]⟩)] "100" ⟨os⟩ ∧
      ∃ l1 x l2, [⟨5, 0⟩, ⟨25, -1⟩] = l1 ++ x :: l2 ∧
        Dec.eqB x (Dec.sub (qsum [⟨5, 0⟩, ⟨25, -1⟩]) ⟨5, 0⟩) = true ∧
        (∀ y ∈ l2, Dec.eqB y (Dec.sub (qsum [⟨5, 0⟩, ⟨25, -1⟩]) ⟨5, 0⟩) = false) ∧
        os = l1 ++ l2) ∧
    (removeExact [⟨5, 0⟩, ⟨25, -1⟩]
        (Dec.sub (qsum [⟨5, 0⟩, ⟨25, -1⟩]) ⟨5, 0⟩) = none →
      applyChange [("100", ⟨[⟨5, 0⟩, ⟨25, -1⟩]⟩)] ("100" :: "5" :: []) =
        mapInsert [("100", ⟨[⟨5, 0⟩, ⟨25, -1⟩]⟩)] "100"
          ⟨reduceLargest [⟨5, 0⟩, ⟨25, -1⟩]
            (Dec.sub (qsum [⟨5, 0⟩, ⟨25, -1⟩]) ⟨5, 0⟩)⟩) ∧
    (removeExact [⟨5, 0⟩, ⟨25, -1⟩]
        (Dec.sub (qsum [⟨5, 0⟩, ⟨25, -1⟩]) ⟨5, 0⟩) = none ↔
      ∀ x ∈ ([⟨5, 0⟩, ⟨25, -1⟩] : List Dec),
        Dec.eqB x (Dec.sub (qsum [⟨5, 0⟩, ⟨25, -1⟩]) ⟨5, 0⟩) = false) :=
  updateQueue_removeExact_first [("100", ⟨[⟨5, 0⟩, ⟨25, -1⟩]⟩)] "100" "5" []
    ⟨5, 0⟩ ⟨[⟨5, 0⟩, ⟨25, -1⟩]⟩ (by decide) (by decide) (by decide) (by decide)

/-- Claim C3: on a nonempty queue, the reduce-largest fallback targets the
lowest index holding the maximum entry (all earlier entries are strictly
smaller, all entries are no greater); when that entry strictly exceeds the
shortfall it is decreased by exactly the shortfall in place, otherwise it
is removed entirely, and in both cases no other entry changes. -/
theorem reduceLargest_lowest_largest (orders : List Dec) (d : Dec)
    (hne : orders ≠ []) :
    0 ≤ largestOrderIndex orders ∧
    (largestOrderIndex orders).toNat < orders.length ∧
    (∀ j < orders.length,
      (getq orders j).toRat ≤ (getq orders (largestOrderIndex orders).toNat).toRat) ∧
    (∀ j < (largestOrderIndex orders).toNat,
      (getq orders j).toRat < (getq orders (largestOrderIndex orders).toNat).toRat) ∧
    (Dec.gtB (getq orders (largestOrderIndex orders).toNat) d = true →
      reduceLargest orders d =
        orders.set (largestOrderIndex orders).toNat
          (Dec.sub (getq orders (largestOrderIndex orders).toNat) d) ∧
      (Dec.sub (getq orders (largestOrderIndex orders).toNat) d).toRat =
        (getq orders (largestOrderIndex orders).toNat).toRat - d.toRat) ∧
    (Dec.gtB (getq orders (largestOrderIndex orders).toNat) d = false →
      reduceLargest orders d =
        orders.eraseIdx (largestOrderIndex orders).toNat) := by
  obtain ⟨hnn, hlen, hmax, hlow⟩ := largestOrderIndex_spec orders hne
  refine ⟨hnn, hlen, hmax, hlow, ?_, ?_⟩
  · intro hgt
    constructor
    · unfold reduceLargest
      rw [if_pos hnn, if_pos hgt]
    · exact toRat_sub _ _
  · intro hgtf
    unfold reduceLargest
    rw [if_pos hnn, if_neg (by simp [hgtf])]

/-- Witness for C3: the spec's scenario S4 — queue `[5, 2.5]`, shortfall
`1`: index 0 holds the maximum and is reduced in place. -/
theorem reduceLargest_lowest_largest_witness :
    0 ≤ largestOrderIndex [⟨5, 0⟩, ⟨25, -1⟩] ∧
    (largestOrderIndex [⟨5, 0⟩, ⟨25, -1⟩]).toNat < ([⟨5, 0⟩, ⟨25, -1⟩] : List Dec).length ∧
    (∀ j < ([⟨5, 0⟩, ⟨25, -1⟩] : List Dec).length,
      (getq [⟨5, 0⟩, ⟨25, -1⟩] j).toRat ≤
        (getq [⟨5, 0⟩, ⟨25, -1⟩] (largestOrderIndex [⟨5, 0⟩, ⟨25, -1⟩]).toNat).toRat) ∧
    (∀ j < (largestOrderIndex [⟨5, 0⟩, ⟨25, -1⟩]).toNat,
      (getq [⟨5, 0⟩, ⟨25, -1⟩] j).toRat <
        (getq [⟨5, 0⟩, ⟨25, -1⟩] (largestOrderIndex [⟨5, 0⟩, ⟨25, -1⟩]).toNat).toRat) ∧
    (Dec.gtB (getq [⟨5, 0⟩, ⟨25, -1⟩] (largestOrderIndex [⟨5, 0⟩, ⟨25, -1⟩]).toNat)
        ⟨10, -1⟩ = true →
      reduceLargest [⟨5, 0⟩, ⟨25, -1⟩] ⟨10, -1⟩ =
        ([⟨5, 0⟩, ⟨25, -1⟩] : List Dec).set (largestOrderIndex [⟨5, 0⟩, ⟨25, -1⟩]).toNat
          (Dec.sub (getq [⟨5, 0⟩, ⟨25, -1⟩] (largestOrderIndex [⟨5, 0⟩, ⟨25, -1⟩]).toNat)
            ⟨10, -1⟩) ∧
      (Dec.sub (getq [⟨5, 0⟩, ⟨25, -1⟩] (largestOrderIndex [⟨5, 0⟩, ⟨25, -1⟩]).toNat)
          ⟨10, -1⟩).toRat =
        (getq [⟨5, 0⟩, ⟨25, -1⟩] (largestOrderIndex [⟨5, 0⟩, ⟨25, -1⟩]).toNat).toRat -
          (⟨10, -1⟩ : Dec).toRat) ∧
    (Dec.gtB (getq [⟨5, 0⟩, ⟨25, -1⟩] (largestOrderIndex [⟨5, 0⟩, ⟨25, -1⟩]).toNat)
        ⟨10, -1⟩ = false →
      reduceLargest [⟨5, 0⟩, ⟨25, -1⟩] ⟨10, -1⟩ =
        ([⟨5, 0⟩, ⟨25, -1⟩] : List Dec).eraseIdx
          (largestOrderIndex [⟨5, 0⟩, ⟨25, -1⟩]).toNat) :=
  reduceLargest_lowest_largest [⟨5, 0⟩, ⟨25, -1⟩] ⟨10, -1⟩ (by decide)

/-- Claim C4: starting from a book loaded from a valid REST snapshot, after
every prefix of a sequence of valid deltas each retained Order Queue is
nonempty with strictly positive entries (so no side map retains an empty
queue). -/
theorem book_invariant_after_deltas (ob0 : L3OrderBook) (resp : binanceRESTResp)
    (updates : List binanceWSUpdate) (k : Nat)
    (hresp : validResp resp = true)
    (hupd : ∀ u ∈ updates, validUpdate u = true) :
    bookOK ((updates.take k).foldl applyDelta (loadSnapshot ob0 resp)) :=
  foldl_applyDelta_ok (updates.take k) (loadSnapshot ob0 resp)
    (loadSnapshot_ok ob0 resp hresp)
    (fun u hu => hupd u (List.mem_of_mem_take hu))

/-- Witness for C4: a snapshot with one level per side followed by one
delta touching the bid level. -/
theorem book_invariant_after_deltas_witness :
    validResp ⟨1, [["100", "5"]], [["101", "3"]]⟩ = true ∧
    bookOK ((([⟨2, 2, [["100", "7.5"]], []⟩] : List binanceWSUpdate).take 1).foldl
      applyDelta (loadSnapshot (NewL3OrderBook "s") ⟨1, [["100", "5"]], [["101", "3"]]⟩)) :=
  ⟨by decide,
    book_invariant_after_deltas (NewL3OrderBook "s") ⟨1, [["100", "5"]], [["101", "3"]]⟩
      [⟨2, 2, [["100", "7.5"]], []⟩] 1 (by decide) (by decide)⟩

theorem buildLevels_orders_mem (side : SideMap) (keys : List String) :
    ∀ lvl ∈ buildLevels side keys 0, ∀ os, lvl.Orders = some os →
      lvl.OrderCount = os.length ∧ lvl.TotalSize = qsum os ∧
      lvl.TotalSize.toRat = (os.map Dec.toRat).sum := by
  intro lvl hlvl os hos
  obtain ⟨b, k, hk, rfl⟩ := buildLevels_mem side keys 0 lvl hlvl
  rw [mkLevel_Orders] at hos
  cases b with
  | false => simp at hos
  | true =>
    have hos2 : ((mapLookup side k).getD ⟨[]⟩).orders = os := by simpa using hos
    rw [mkLevel_OrderCount, mkLevel_TotalSize, ← hos2]
    exact ⟨rfl, rfl, toRat_qsum _⟩

theorem buildLevels_orders_idx (side : SideMap) (keys : List String) :
    ∀ j, j < keys.length →
      ((((buildLevels side keys 0).getD j dummyLevel).Orders ≠ none) ↔ j < 10) := by
  intro j hj
  rw [buildLevels_getD side keys 0 j hj, mkLevel_Orders]
  simp only [Nat.zero_add, decide_eq_true_eq]
  by_cases hj10 : j < 10
  · rw [if_pos hj10]
    simp [hj10]
  · rw [if_neg hj10]
    simp [hj10]

/-- Claim C8: in every snapshot, whenever the `orders` list is present
its length equals `order_count` and the level's `total_size` is the sum of
its entries (both as decimals and as exact rational values); and `orders`
is present exactly for the first 10 levels of each side. -/
theorem snapshot_orders_top10 (ob : L3OrderBook) (N : Nat) (nowMs : Int) :
    (∀ lvl ∈ (getL3Snapshot ob N nowMs).Bids, ∀ os, lvl.Orders = some os →
      lvl.OrderCount = os.length ∧ lvl.TotalSize = qsum os ∧
      lvl.TotalSize.toRat = (os.map Dec.toRat).sum) ∧
    (∀ lvl ∈ (getL3Snapshot ob N nowMs).Asks, ∀ os, lvl.Orders = some os →
      lvl.OrderCount = os.length ∧ lvl.TotalSize = qsum os ∧
      lvl.TotalSize.toRat = (os.map Dec.toRat).sum) ∧
    (∀ j, j < (getL3Snapshot ob N nowMs).Bids.length →
      ((((getL3Snapshot ob N nowMs).Bids.getD j dummyLevel).Orders ≠ none) ↔ j < 10)) ∧
    (∀ j, j < (getL3Snapshot ob N nowMs).Asks.length →
      ((((getL3Snapshot ob N nowMs).Asks.getD j dummyLevel).Orders ≠ none) ↔ j < 10)) := by
  unfold getL3Snapshot
  dsimp only
  refine ⟨buildLevels_orders_mem _ _, buildLevels_orders_mem _ _, ?_, ?_⟩
  · intro j hj
    rw [buildLevels_length] at hj
    exact buildLevels_orders_idx _ _ j hj
  · intro j hj
    rw [buildLevels_length] at hj
    exact buildLevels_orders_idx _ _ j hj

/-- Witness for C8 at a one-level-per-side book: the first bid level
carries `orders = [5]`, count 1, total 5, and its `orders` field is
present at index 0. -/
theorem snapshot_orders_top10_witness :
    (((getL3Snapshot
        (loadSnapshot (NewL3OrderBook "s") ⟨1, [["100", "5"]], [["101", "3"]]⟩)
        100 0).Bids.headD dummyLevel).OrderCount = ([⟨5, 0⟩] : List Dec).length ∧
      ((getL3Snapshot
        (loadSnapshot (NewL3OrderBook "s") ⟨1, [["100", "5"]], [["101", "3"]]⟩)
        100 0).Bids.headD dummyLevel).TotalSize = qsum [⟨5, 0⟩] ∧
      ((getL3Snapshot
        (loadSnapshot (NewL3OrderBook "s") ⟨1, [["100", "5"]], [["101", "3"]]⟩)
        100 0).Bids.headD dummyLevel).TotalSize.toRat =
        (([⟨5, 0⟩] : List Dec).map Dec.toRat).sum) ∧
    ((((getL3Snapshot
        (loadSnapshot (NewL3OrderBook "s") ⟨1, [["100", "5"]], [["101", "3"]]⟩)
        100 0).Bids.getD 0 dummyLevel).Orders ≠ none) ↔ 0 < 10) :=
  ⟨(snapshot_orders_top10
      (loadSnapshot (NewL3OrderBook "s") ⟨1, [["100", "5"]], [["101", "3"]]⟩) 100 0).1
      _ (by decide) [⟨5, 0⟩] (by decide),
    (snapshot_orders_top10
      (loadSnapshot (NewL3OrderBook "s") ⟨1, [["100", "5"]], [["101", "3"]]⟩) 100 0).2.2.1
      0 (by decide)⟩

/-- Claim C7: when the side maps hold no two keys with equal decimal
value (the §3 canonical-form assumption on exchange price strings),
`getL3Snapshot` emits bids sorted strictly decreasing and asks strictly
increasing by decimal price value, each side truncated to
`min N (number of levels)`. -/
theorem snapshot_sorted_truncated (ob : L3OrderBook) (N : Nat) (nowMs : Int)
    (hbids : (ob.bids.map Prod.fst).Pairwise
      fun a b => Dec.eqB (decVal a) (decVal b) = false)
    (hasks : (ob.asks.map Prod.fst).Pairwise
      fun a b => Dec.eqB (decVal a) (decVal b) = false) :
    ((getL3Snapshot ob N nowMs).Bids.map L3Level.Price).Pairwise
      (fun p q => q.toRat < p.toRat) ∧
    ((getL3Snapshot ob N nowMs).Asks.map L3Level.Price).Pairwise
      (fun p q => p.toRat < q.toRat) ∧
    (getL3Snapshot ob N nowMs).Bids.length = min N ob.bids.length ∧
    (getL3Snapshot ob N nowMs).Asks.length = min N ob.asks.length := by
  have hne : ∀ {a b : String}, Dec.eqB (decVal a) (decVal b) = false →
      (decVal a).toRat ≠ (decVal b).toRat := by
    intro a b h hc
    have := (eqB_iff (decVal a) (decVal b)).mpr hc
    rw [h] at this
    exact Bool.noConfusion this
  have hsymm : Symmetric (fun a b : String => (decVal a).toRat ≠ (decVal b).toRat) :=
    fun a b h => h.symm
  unfold getL3Snapshot
  dsimp only
  refine ⟨?_, ?_, ?_, ?_⟩
  · rw [buildLevels_map_price, List.pairwise_map]
    refine List.Pairwise.sublist (List.take_sublist _ _) ?_
    have hdist2 := ((List.perm_insertionSort bidOrder (ob.bids.map Prod.fst)).pairwise_iff
      (fun h => Ne.symm h)).mpr (hbids.imp hne)
    exact ((bids_sort_sorted (ob.bids.map Prod.fst)).and hdist2).imp
      fun h => lt_of_le_of_ne h.1 h.2.symm
  · rw [buildLevels_map_price, List.pairwise_map]
    refine List.Pairwise.sublist (List.take_sublist _ _) ?_
    have hdist2 := ((List.perm_insertionSort askOrder (ob.asks.map Prod.fst)).pairwise_iff
      (fun h => Ne.symm h)).mpr (hasks.imp hne)
    exact ((asks_sort_sorted (ob.asks.map Prod.fst)).and hdist2).imp
      fun h => lt_of_le_of_ne h.1 h.2
  · rw [buildLevels_length, List.length_take, List.length_insertionSort, List.length_map]
    omega
  · rw [buildLevels_length, List.length_take, List.length_insertionSort, List.length_map]
    omega

/-- Witness for C7: the spec's scenario S7 — bids at 101, 99, 100 and asks
at 102, 104, 103, truncated to the top 2 of each side. -/
theorem snapshot_sorted_truncated_witness :
    ((getL3Snapshot (loadSnapshot (NewL3OrderBook "s")
        ⟨7, [["101", "1"], ["99", "1"], ["100", "1"]],
          [["102", "1"], ["104", "1"], ["103", "1"]]⟩) 2 0).Bids.map
      L3Level.Price).Pairwise (fun p q => q.toRat < p.toRat) ∧
    ((getL3Snapshot (loadSnapshot (NewL3OrderBook "s")
        ⟨7, [["101", "1"], ["99", "1"], ["100", "1"]],
          [["102", "1"], ["104", "1"], ["103", "1"]]⟩) 2 0).Asks.map
      L3Level.Price).Pairwise (fun p q => p.toRat < q.toRat) ∧
    (getL3Snapshot (loadSnapshot (NewL3OrderBook "s")
        ⟨7, [["101", "1"], ["99", "1"], ["100", "1"]],
          [["102", "1"], ["104", "1"], ["103", "1"]]⟩) 2 0).Bids.length =
      min 2 (loadSnapshot (NewL3OrderBook "s")
        ⟨7, [["101", "1"], ["99", "1"], ["100", "1"]],
          [["102", "1"], ["104", "1"], ["103", "1"]]⟩).bids.length ∧
    (getL3Snapshot (loadSnapshot (NewL3OrderBook "s")
        ⟨7, [["101", "1"], ["99", "1"], ["100", "1"]],
          [["102", "1"], ["104", "1"], ["103", "1"]]⟩) 2 0).Asks.length =
      min 2 (loadSnapshot (NewL3OrderBook "s")
        ⟨7, [["101", "1"], ["99", "1"], ["100", "1"]],
          [["102", "1"], ["104", "1"], ["103", "1"]]⟩).asks.length :=
  snapshot_sorted_truncated (loadSnapshot (NewL3OrderBook "s")
    ⟨7, [["101", "1"], ["99", "1"], ["100", "1"]],
      [["102", "1"], ["104", "1"], ["103", "1"]]⟩) 2 0 (by decide) (by decide)

theorem buildLevels_avg (side : SideMap) (keys : List String)
    (hsub : ∀ k ∈ keys, k ∈ side.map Prod.fst) (hside : sideOK side) :
    ∀ lvl ∈ buildLevels side keys 0, 0 < lvl.OrderCount ∧
      lvl.AvgOrder.toRat = roundAway16 (lvl.TotalSize.toRat / (lvl.OrderCount : ℚ)) := by
  intro lvl hlvl
  obtain ⟨b, k, hk, rfl⟩ := buildLevels_mem side keys 0 lvl hlvl
  obtain ⟨v, hv, hmem⟩ := mem_keys_lookup side k (hsub k hk)
  have hq : queueOK v := hside (k, v) hmem
  have hlen : 0 < v.orders.length := List.length_pos.mpr hq.1
  rw [hv]
  simp only [Option.getD_some]
  constructor
  · rw [mkLevel_OrderCount]
    exact hlen
  · rw [mkLevel_AvgOrder, mkLevel_TotalSize, mkLevel_OrderCount, if_pos hlen]
    rw [div_toRat _ _ (by exact_mod_cast hlen : (0 : Int) < ((v.orders.length : Nat) : Int))]
    rw [toRat_NewFromInt]
    norm_num

/-- Claim C6, amended: for every book whose queues satisfy the §3
invariant (as all reachable books do), every emitted level has a nonzero
`order_count`, and `avg_order` is `total_size / order_count` rounded half
away from zero at the 16th decimal place — shopspring `Div` at its default
`DivisionPrecision` — rather than the exact rational quotient. -/
theorem avgOrder_divRound16 (ob : L3OrderBook) (N : Nat) (nowMs : Int)
    (hob : bookOK ob) :
    (∀ lvl ∈ (getL3Snapshot ob N nowMs).Bids, 0 < lvl.OrderCount ∧
      lvl.AvgOrder.toRat = roundAway16 (lvl.TotalSize.toRat / (lvl.OrderCount : ℚ))) ∧
    (∀ lvl ∈ (getL3Snapshot ob N nowMs).Asks, 0 < lvl.OrderCount ∧
      lvl.AvgOrder.toRat = roundAway16 (lvl.TotalSize.toRat / (lvl.OrderCount : ℚ))) := by
  unfold getL3Snapshot
  dsimp only
  constructor
  · exact buildLevels_avg ob.bids _
      (fun k hk => (List.mem_insertionSort bidOrder).mp (List.mem_of_mem_take hk)) hob.1
  · exact buildLevels_avg ob.asks _
      (fun k hk => (List.mem_insertionSort askOrder).mp (List.mem_of_mem_take hk)) hob.2

/-- Witness for C6 at a book loaded from a one-level-per-side snapshot. -/
theorem avgOrder_divRound16_witness :
    0 < ((getL3Snapshot (loadSnapshot (NewL3OrderBook "s")
        ⟨1, [["100", "5"]], [["101", "3"]]⟩) 100 0).Bids.headD dummyLevel).OrderCount ∧
    ((getL3Snapshot (loadSnapshot (NewL3OrderBook "s")
        ⟨1, [["100", "5"]], [["101", "3"]]⟩) 100 0).Bids.headD dummyLevel).AvgOrder.toRat =
      roundAway16 (((getL3Snapshot (loadSnapshot (NewL3OrderBook "s")
          ⟨1, [["100", "5"]], [["101", "3"]]⟩) 100 0).Bids.headD
            dummyLevel).TotalSize.toRat /
        (((getL3Snapshot (loadSnapshot (NewL3OrderBook "s")
          ⟨1, [["100", "5"]], [["101", "3"]]⟩) 100 0).Bids.headD
            dummyLevel).OrderCount : ℚ)) :=
  (avgOrder_divRound16 (loadSnapshot (NewL3OrderBook "s")
      ⟨1, [["100", "5"]], [["101", "3"]]⟩) 100 0
    (loadSnapshot_ok (NewL3OrderBook "s") ⟨1, [["100", "5"]], [["101", "3"]]⟩
      (by decide))).1 _ (by decide)

/-- Claim C6, counterexample: the claim says `avg_order` is the exact
rational quotient `total_size / order_count`; with three orders summing
to 1 the code emits `0.3333333333333333` (16 places), which differs from
the exact quotient `1/3`. -/
theorem avgOrder_not_exact :
    ((getL3Snapshot (applyDelta (applyDelta (loadSnapshot (NewL3OrderBook "s")
        ⟨1, [["100", "0.5"]], []⟩) ⟨2, 2, [["100", "0.8"]], []⟩)
        ⟨3, 3, [["100", "1"]], []⟩) 100 0).Bids.headD dummyLevel).OrderCount = 3 ∧
    ((getL3Snapshot (applyDelta (applyDelta (loadSnapshot (NewL3OrderBook "s")
        ⟨1, [["100", "0.5"]], []⟩) ⟨2, 2, [["100", "0.8"]], []⟩)
        ⟨3, 3, [["100", "1"]], []⟩) 100 0).Bids.headD dummyLevel).TotalSize.toRat = 1 ∧
    ((getL3Snapshot (applyDelta (applyDelta (loadSnapshot (NewL3OrderBook "s")
        ⟨1, [["100", "0.5"]], []⟩) ⟨2, 2, [["100", "0.8"]], []⟩)
        ⟨3, 3, [["100", "1"]], []⟩) 100 0).Bids.headD dummyLevel).AvgOrder.toRat ≠
      ((getL3Snapshot (applyDelta (applyDelta (loadSnapshot (NewL3OrderBook "s")
        ⟨1, [["100", "0.5"]], []⟩) ⟨2, 2, [["100", "0.8"]], []⟩)
        ⟨3, 3, [["100", "1"]], []⟩) 100 0).Bids.headD dummyLevel).TotalSize.toRat /
        (((getL3Snapshot (applyDelta (applyDelta (loadSnapshot (NewL3OrderBook "s")
          ⟨1, [["100", "0.5"]], []⟩) ⟨2, 2, [["100", "0.8"]], []⟩)
          ⟨3, 3, [["100", "1"]], []⟩) 100 0).Bids.headD dummyLevel).OrderCount : ℚ) := by
  have hlvl : (getL3Snapshot (applyDelta (applyDelta (loadSnapshot (NewL3OrderBook "s")
      ⟨1, [["100", "0.5"]], []⟩) ⟨2, 2, [["100", "0.8"]], []⟩)
      ⟨3, 3, [["100", "1"]], []⟩) 100 0).Bids.headD dummyLevel =
      ⟨⟨100, 0⟩, ⟨10, -1⟩, 3, some [⟨5, -1⟩, ⟨3, -1⟩, ⟨2, -1⟩], ⟨5, -1⟩,
        ⟨3333333333333333, -16⟩⟩ := by decide
  rw [hlvl]
  refine ⟨rfl, ?_, ?_⟩
  · unfold Dec.toRat
    norm_num
  · unfold Dec.toRat
    norm_num

end L3
